import Mathlib

/-!
Verification of the movement-simulation kernel and calibration harness of the
ollin / pycamtrap repository, embedded shallowly in Lean.

Real-valued code is embedded over `ℝ`; Python's float modulo (positive divisor)
is `rmod`; the numpy random draws consumed by the kernels are passed in as
explicit oracle streams, so every theorem quantifies over all possible draws.
All definitions are translated from the Python source files; the sole
exceptions are definitions whose doc comment says they restate a spec formula,
kept only to be compared against the source-derived definition.
-/

namespace Ollin

/-! ## Core numeric utilities (src/pycamtrap/core/utils.py) -/

/-- Embedding of `utils.sigmoid`: `1 / (1 + np.exp(-x))`. -/
noncomputable def sigmoid (x : ℝ) : ℝ := 1 / (1 + Real.exp (-x))

/-- Embedding of `utils.logit`: `-np.log((1/y) - 1)`. -/
noncomputable def logit (y : ℝ) : ℝ := -Real.log (1 / y - 1)

/-! ## Python float modulo and the boundary fold (movement.py lines 57-67) -/

/-- Python's float `%` for a positive divisor: `x - y * ⌊x / y⌋`. -/
noncomputable def rmod (x y : ℝ) : ℝ := x - y * (⌊x / y⌋ : ℤ)

/-- Embedding of the per-axis boundary rule of `_movement`
(movement.py lines 57-67 and constant_brownian.py lines 72-82):
`t = x % (2*range_); t % range_ if t < range_ else (-t) % range_`. -/
noncomputable def foldCoord (x range_ : ℝ) : ℝ :=
  if rmod x (2 * range_) < range_ then rmod (rmod x (2 * range_)) range_
  else rmod (-(rmod x (2 * range_))) range_

/-! ## Heatmap-weighted movement kernel (movement.py `_movement`) -/

/-- Embedding of the suitability-grid lookup index of `_movement` line 46-49:
`int(position // resolution)`.  The floor division produces an integer-valued
float and the `int` cast of it is exact, so the index is `⌊x / resolution⌋`. -/
noncomputable def gridIndex (x resolution : ℝ) : ℤ := ⌊x / resolution⌋

/-- Validity of an integer index for a grid axis with `dim` cells. -/
def indexInBounds (i : ℤ) (dim : ℕ) : Prop := 0 ≤ i ∧ i < (dim : ℤ)

/-- Embedding of `_movement` line 50: `exponent = 1.1 + 0.9 * value`. -/
def stepExponent (value : ℝ) : ℝ := 1.1 + 0.9 * value

/-- The divisor of the step-magnitude formula, `_movement` lines 51-52:
`(1 - u) ** (1/exponent) * exponent` with `u = np.random.rand()`. -/
noncomputable def stepDivisor (value u : ℝ) : ℝ :=
  (1 - u) ^ ((1 : ℝ) / stepExponent value) * stepExponent value

/-- Embedding of `_movement` lines 51-52:
`magnitude = (velocity * (exponent - 1)) / ((1 - u) ** (1/exponent) * exponent)`. -/
noncomputable def stepMagnitude (velStep value u : ℝ) : ℝ :=
  velStep * (stepExponent value - 1) / stepDivisor value u

/-- One per-individual update of `_movement` (lines 44-67): look up the
suitability value at the current cell, draw a step of `stepMagnitude` length in
the direction of the uniform `angle`, and fold both axes back into the square
habitat.  The two random draws of the step (`angle`, `u`) are explicit
arguments. -/
noncomputable def hStep (heatmap : ℤ → ℤ → ℝ) (resolution velStep range_ angle u : ℝ)
    (p : ℝ × ℝ) : ℝ × ℝ :=
  let value := heatmap (gridIndex p.1 resolution) (gridIndex p.2 resolution)
  let magnitude := stepMagnitude velStep value u
  (foldCoord (p.1 + magnitude * Real.cos angle) range_,
   foldCoord (p.2 + magnitude * Real.sin angle) range_)

/-- Position of individual `j` after `k` updates of the `_movement` loop.
`angles` and `us` are the oracle streams standing for the numpy draws
`random_angles[k, j]` and `np.random.rand()`; the per-step velocity is
`velocity / steps_per_day` as computed on line 39. -/
noncomputable def hPositions (heatmap : ℤ → ℤ → ℝ) (resolution velocity range_ : ℝ)
    (steps_per_day : ℕ) (angles us : ℕ → ℕ → ℝ) (p0 : ℕ → ℝ × ℝ) :
    ℕ → ℕ → ℝ × ℝ
  | 0 => p0
  | k + 1 => fun j =>
      hStep heatmap resolution (velocity / (steps_per_day : ℝ)) range_
        (angles k j) (us k j)
        (hPositions heatmap resolution velocity range_ steps_per_day angles us p0 k j)

/-- The trajectory tensor of `_movement`: `movement[j, k]` records the position
of individual `j` at the top of loop iteration `k`, i.e. after `k` updates. -/
noncomputable def hMovement (heatmap : ℤ → ℤ → ℝ) (resolution velocity range_ : ℝ)
    (steps_per_day : ℕ) (angles us : ℕ → ℕ → ℝ) (p0 : ℕ → ℝ × ℝ) (j k : ℕ) : ℝ × ℝ :=
  hPositions heatmap resolution velocity range_ steps_per_day angles us p0 k j

/-! ## Constant-brownian movement kernel (constant_brownian.py `Model._movement`) -/

/-- Embedding of constant_brownian.py line 60:
`sigma = velocity / 1.2533141373155003`. -/
noncomputable def brownianSigma (velocity : ℝ) : ℝ := velocity / 1.2533141373155003

/-- One per-individual update of the constant-brownian `_movement`
(lines 67-82).  The Gaussian draw `np.random.normal(0, sigma)` is modelled as
`sigma * z` with `z` an arbitrary unit-scale oracle value, which matches numpy
for every `sigma ≥ 0` (in particular `sigma = 0` forces a zero draw). -/
noncomputable def bStep (sigma rangex rangey zx zy : ℝ) (p : ℝ × ℝ) : ℝ × ℝ :=
  (foldCoord (p.1 + sigma * zx) rangex, foldCoord (p.2 + sigma * zy) rangey)

/-- Position of individual `j` after `k` updates of the constant-brownian
loop; `generate_movement` divides the velocity by `steps_per_day` before
calling `_movement` (constant_brownian.py line 36). -/
noncomputable def bPositions (velocity rangex rangey : ℝ) (steps_per_day : ℕ)
    (zxs zys : ℕ → ℕ → ℝ) (p0 : ℕ → ℝ × ℝ) : ℕ → ℕ → ℝ × ℝ
  | 0 => p0
  | k + 1 => fun j =>
      bStep (brownianSigma (velocity / (steps_per_day : ℝ))) rangex rangey
        (zxs k j) (zys k j)
        (bPositions velocity rangex rangey steps_per_day zxs zys p0 k j)

/-- The trajectory tensor of the constant-brownian `_movement`. -/
noncomputable def bMovement (velocity rangex rangey : ℝ) (steps_per_day : ℕ)
    (zxs zys : ℕ → ℕ → ℝ) (p0 : ℕ → ℝ × ℝ) (j k : ℕ) : ℝ × ℝ :=
  bPositions velocity rangex rangey steps_per_day zxs zys p0 k j

end Ollin

namespace Ollin

/-! ## IEEE-tracking value domain for the occupancy fit (ollin/calibration/occupancy.py) -/

/-- Division as numpy computes it: `none` stands for a non-finite float
(`inf`, `-inf` or `nan`), produced here by division by zero. -/
noncomputable def fdiv : Option ℝ → Option ℝ → Option ℝ
  | some a, some b => if b = 0 then none else some (a / b)
  | _, _ => none

/-- Subtraction on the non-finite-tracking domain. -/
def fsub : Option ℝ → Option ℝ → Option ℝ
  | some a, some b => some (a - b)
  | _, _ => none

/-- Logarithm as numpy computes it: `np.log` of `0` is `-inf` and of a
negative number is `nan`, both non-finite; `np.log` of a non-finite input is
non-finite. -/
noncomputable def flog : Option ℝ → Option ℝ
  | some a => if a ≤ 0 then none else some (Real.log a)
  | none => none

/-- Negation on the non-finite-tracking domain. -/
def fneg : Option ℝ → Option ℝ
  | some a => some (-a)
  | none => none

/-- `utils.logit` evaluated with numpy float semantics:
`-np.log((1/y) - 1)`. -/
noncomputable def logitF (y : ℝ) : Option ℝ :=
  fneg (flog (fsub (fdiv (some 1) (some y)) (some 1)))

/-- The regression-target construction of `OccupancyCalibrator.fit`
(occupancy.py line 378): `Y.append(logit(oc_data))` for every raveled cell of
the result tensor — every occupancy sample is passed to `logit` unchanged and
every transformed value is kept. -/
noncomputable def fitY (oc_data : List ℝ) : List (Option ℝ) := oc_data.map logitF

/-! ## Interrupt handlers of the three calibrators -/

/-- The effect statements appearing in the `except KeyboardInterrupt` handlers
of the calibrators. -/
inductive HandlerStmt where
  | poolTerminate
  | sysExit
  | quitCall
  | raiseKeyboardInterrupt
  deriving DecidableEq

/-- Outcome of running a handler: the interrupt is swallowed (handler falls
through), the process exits, or the interrupt propagates to the caller. -/
inductive HandlerResult where
  | fallthrough
  | exited
  | reraised
  deriving DecidableEq

/-- Sequential execution of a handler body.  The boolean tracks whether
`pool.terminate()` has run; `sys.exit()`, `quit()` and `raise` abort the
remaining statements (`sys.exit` raises `SystemExit`, ending the process). -/
def runHandler : List HandlerStmt → Bool → Bool × HandlerResult
  | [], term => (term, HandlerResult.fallthrough)
  | HandlerStmt.poolTerminate :: rest, _ => runHandler rest true
  | HandlerStmt.sysExit :: _, term => (term, HandlerResult.exited)
  | HandlerStmt.quitCall :: _, term => (term, HandlerResult.exited)
  | HandlerStmt.raiseKeyboardInterrupt :: _, term => (term, HandlerResult.reraised)

/-- velocity.py lines 55-58: `pool.terminate(); sys.exit(); quit()`. -/
def velocityHandler : List HandlerStmt :=
  [HandlerStmt.poolTerminate, HandlerStmt.sysExit, HandlerStmt.quitCall]

/-- home_range.py lines 54-57: `pool.terminate(); sys.exit(); quit()`. -/
def homeRangeHandler : List HandlerStmt :=
  [HandlerStmt.poolTerminate, HandlerStmt.sysExit, HandlerStmt.quitCall]

/-- ollin/calibration/occupancy.py lines 133-135:
`pool.terminate(); raise KeyboardInterrupt`. -/
def occupancyHandler : List HandlerStmt :=
  [HandlerStmt.poolTerminate, HandlerStmt.raiseKeyboardInterrupt]

end Ollin

namespace HomeRangeCalibration

/-- home_range.py line 8. -/
def TRIALS_PER_WORLD : ℕ := 1000

/-- home_range.py line 9. -/
def NUM_WORLDS : ℕ := 10

/-- The attributes of `HomeRangeCalibrator` that determine the result-tensor
shape. -/
structure Calibrator where
  n_vel : ℕ
  n_nsz : ℕ
  num_worlds : ℕ
  trials_per_world : ℕ

/-- `HomeRangeCalibrator.__init__` (home_range.py lines 16-30): the stored
`trials_per_world` and `num_worlds` are assigned from the module constants
`TRIALS_PER_WORLD` and `NUM_WORLDS`, not from the constructor arguments. -/
def Calibrator.make (velocities niche_sizes : List ℝ)
    (trials_per_world num_worlds : ℕ) : Calibrator :=
  { n_vel := velocities.length
    n_nsz := niche_sizes.length
    num_worlds := NUM_WORLDS
    trials_per_world := TRIALS_PER_WORLD }

/-- Shape of `np.zeros([n_vel, n_nsz, self.num_worlds, self.trials_per_world])`
(home_range.py lines 40-41). -/
def Calibrator.infoShape (c : Calibrator) : List ℕ :=
  [c.n_vel, c.n_nsz, c.num_worlds, c.trials_per_world]

end HomeRangeCalibration

namespace VelocityCalibration

/-- The attributes of `VelocityCalibrator` that determine the result-tensor
shape. -/
structure Calibrator where
  n_vel : ℕ
  n_nsz : ℕ
  num_worlds : ℕ
  trials_per_world : ℕ

/-- `VelocityCalibrator.__init__` (velocity.py lines 17-31): the stored counts
are the constructor arguments. -/
def Calibrator.make (velocities niche_sizes : List ℝ)
    (trials_per_world num_worlds : ℕ) : Calibrator :=
  { n_vel := velocities.length
    n_nsz := niche_sizes.length
    num_worlds := num_worlds
    trials_per_world := trials_per_world }

/-- Shape of `np.zeros([n_vel, n_nsz, self.num_worlds, self.trials_per_world])`
(velocity.py lines 41-42). -/
def Calibrator.infoShape (c : Calibrator) : List ℕ :=
  [c.n_vel, c.n_nsz, c.num_worlds, c.trials_per_world]

end VelocityCalibration

namespace Harness

/-! ## Calibration harness enumeration and write-back
(velocity.py `calculate_velocity_info`, lines 35-69; the same pattern appears
in home_range.py lines 34-68 and ollin/calibration/occupancy.py lines 79-148).
The grid has two swept axes plus the world index. -/

/-- The task list (velocity.py lines 43-47): one task per
`(velocity, niche_size)` pair, repeated once per world, enumerated with the
first axis outermost, the second axis next and the world index innermost.  The
`Info` object of a task records only the two axis values (the world index `k`
of the comprehension is unused in the body). -/
def taskList {A B : Type} (as : List A) (bs : List B) (w : ℕ) : List (A × B) :=
  as.flatMap fun a => bs.flatMap fun b => (List.range w).map fun _ => (a, b)

/-- The index-tuple list (velocity.py lines 60-64), built with the same
nesting order as the task list. -/
def indexList (n1 n2 w : ℕ) : List (ℕ × ℕ × ℕ) :=
  (List.range n1).flatMap fun i =>
    (List.range n2).flatMap fun j => (List.range w).map fun k => (i, j, k)

/-- `results = pool.map(get_single_velocity_info, arguments)` (velocity.py
line 52): an ordered synchronous collection, the m-th result coming from the
m-th task.  Each worker owns an independent random stream, so the value the
m-th call returns is modelled as an arbitrary function `f` of the call
position and the task it received. -/
def poolMap {A B R : Type} (f : ℕ → A × B → R) (tasks : List (A × B)) : List R :=
  tasks.enum.map fun p => f p.1 p.2

/-- A single array write `all_info[i, j, k, :] = res`, the tensor viewed as a
total map from index tuples to per-trial result blocks. -/
def tensorWrite {R : Type} (t : ℕ × ℕ × ℕ → R) (q : ℕ × ℕ × ℕ) (v : R) :
    ℕ × ℕ × ℕ → R :=
  fun q2 => if q2 = q then v else t q2

/-- The write-back loop (velocity.py lines 66-67):
`for (i, j, k), res in zip(arguments, results): all_info[i, j, k, :] = res`. -/
def writeBack {R : Type} (t0 : ℕ × ℕ × ℕ → R)
    (pairs : List ((ℕ × ℕ × ℕ) × R)) : ℕ × ℕ × ℕ → R :=
  pairs.foldl (fun t p => tensorWrite t p.1 p.2) t0

/-- The whole of `calculate_velocity_info`: enumerate the tasks, run them
through the pool in order, and write the results positionally into the
zero-initialized tensor (`np.zeros`, velocity.py lines 41-42). -/
def calculateInfo {A B R : Type} [Zero R] (f : ℕ → A × B → R)
    (as : List A) (bs : List B) (w : ℕ) : ℕ × ℕ × ℕ → R :=
  writeBack (fun _ => 0)
    ((indexList as.length bs.length w).zip (poolMap f (taskList as bs w)))

end Harness

namespace Ollin

/-! ## Boundary-fold properties (used by C2 and C9) -/

theorem rmod_nonneg (x : ℝ) {y : ℝ} (hy : 0 < y) : 0 ≤ rmod x y := by
  have h := Int.floor_le (x / y)
  have h2 : y * (⌊x / y⌋ : ℤ) ≤ y * (x / y) :=
    mul_le_mul_of_nonneg_left h hy.le
  have h3 : y * (x / y) = x := by
    field_simp
  simp only [rmod]
  linarith

theorem rmod_lt (x : ℝ) {y : ℝ} (hy : 0 < y) : rmod x y < y := by
  have h := Int.lt_floor_add_one (x / y)
  have h2 : y * (x / y) < y * ((⌊x / y⌋ : ℤ) + 1) :=
    mul_lt_mul_of_pos_left h hy
  have h3 : y * (x / y) = x := by
    field_simp
  simp only [rmod]
  nlinarith

theorem rmod_eq_self {x y : ℝ} (h0 : 0 ≤ x) (hxy : x < y) : rmod x y = x := by
  have hy : 0 < y := lt_of_le_of_lt h0 hxy
  have hfl : ⌊x / y⌋ = 0 := by
    rw [Int.floor_eq_zero_iff]
    constructor
    · exact div_nonneg h0 hy.le
    · exact (div_lt_one hy).2 hxy
  simp [rmod, hfl]

theorem rmod_neg_reflect {x r : ℝ} (h1 : r < x) (h2 : x < 2 * r) :
    rmod (-x) r = 2 * r - x := by
  have hr : 0 < r := by linarith
  have hfl : ⌊-x / r⌋ = -2 := by
    rw [Int.floor_eq_iff]
    constructor
    · push_cast
      rw [le_div_iff₀ hr]
      nlinarith
    · push_cast
      rw [div_lt_iff₀ hr]
      nlinarith
  simp only [rmod, hfl]
  push_cast
  ring

/-- The fold is the identity on a coordinate already inside `[0, range_)`. -/
theorem foldCoord_eq_self {x r : ℝ} (hr : 0 < r) (h0 : 0 ≤ x) (hxr : x < r) :
    foldCoord x r = x := by
  have ht : rmod x (2 * r) = x := rmod_eq_self h0 (by linarith)
  simp only [foldCoord, ht, if_pos hxr]
  exact rmod_eq_self h0 hxr

/-- The fold always lands in `[0, range_)`. -/
theorem foldCoord_mem {r : ℝ} (hr : 0 < r) (x : ℝ) :
    0 ≤ foldCoord x r ∧ foldCoord x r < r := by
  unfold foldCoord
  split
  · exact ⟨rmod_nonneg _ hr, rmod_lt _ hr⟩
  · exact ⟨rmod_nonneg _ hr, rmod_lt _ hr⟩

/-- Between one and two ranges the fold reflects off the far edge. -/
theorem foldCoord_reflect {x r : ℝ} (h1 : r < x) (h2 : x < 2 * r) :
    foldCoord x r = 2 * r - x := by
  have hr : 0 < r := by linarith
  have ht : rmod x (2 * r) = x := rmod_eq_self (by linarith) h2
  simp only [foldCoord, ht, if_neg (not_lt.2 h1.le)]
  exact rmod_neg_reflect h1 h2

end Ollin

/-- C2: for every real proposed coordinate and positive habitat extent `r`, the
boundary rule of `_movement` yields a value in `[0, r)`, is the identity on
`[0, r)`, and reflects (`2r - x`) for `x` strictly between `r` and `2r`. -/
theorem C2_boundary_fold {r : ℝ} (hr : 0 < r) :
    (∀ x : ℝ, Ollin.foldCoord x r ∈ Set.Ico 0 r) ∧
    (∀ x : ℝ, 0 ≤ x → x < r → Ollin.foldCoord x r = x) ∧
    (∀ x : ℝ, r < x → x < 2 * r → Ollin.foldCoord x r = 2 * r - x) := by
  refine ⟨fun x => ?_, fun x h0 h1 => Ollin.foldCoord_eq_self hr h0 h1,
    fun x h1 h2 => Ollin.foldCoord_reflect h1 h2⟩
  have h := Ollin.foldCoord_mem hr x
  exact Set.mem_Ico.2 h

/-- Witness for C2 at `r = 1`: the fold maps 5 into `[0,1)`, fixes `1/2`,
and reflects `3/2` to `2 - 3/2`. -/
theorem C2_boundary_fold_witness :
    0 < (1 : ℝ) ∧ Ollin.foldCoord 5 1 ∈ Set.Ico (0 : ℝ) 1 ∧
    Ollin.foldCoord (1 / 2) 1 = 1 / 2 ∧
    Ollin.foldCoord (3 / 2) 1 = 2 * 1 - 3 / 2 := by
  have h := C2_boundary_fold (show (0 : ℝ) < 1 by norm_num)
  exact ⟨by norm_num, h.1 5, h.2.1 (1 / 2) (by norm_num) (by norm_num),
    h.2.2 (3 / 2) (by norm_num) (by norm_num)⟩

/-- C3 counterexample: the constant-brownian standard deviation at unit
per-step velocity is not `1 / √(2/π)` (which equals `√(π/2) ≈ 1.2533`): the
code computes `1 / 1.2533141373155003 ≈ 0.7979`, which is below 1, while the
claimed value is above 1. -/
theorem C3_sigma_counterexample :
    Ollin.brownianSigma 1 ≠ 1 / Real.sqrt (2 / Real.pi) := by
  have hpi : (3 : ℝ) < Real.pi := Real.pi_gt_three
  have h1 : Real.sqrt (2 / Real.pi) < 1 := by
    rw [show (1 : ℝ) = Real.sqrt 1 by rw [Real.sqrt_one]]
    apply Real.sqrt_lt_sqrt (by positivity)
    rw [div_lt_one (by linarith)]
    linarith
  have h0 : 0 < Real.sqrt (2 / Real.pi) := Real.sqrt_pos.2 (by positivity)
  have h2 : 1 < 1 / Real.sqrt (2 / Real.pi) := one_lt_one_div h0 h1
  have h3 : Ollin.brownianSigma 1 < 1 := by
    rw [Ollin.brownianSigma]
    norm_num
  intro hEq
  rw [hEq] at h3
  linarith

/-- C3 amended: the divisor in `sigma = velocity / 1.2533141373155003` is the
constant `√(π/2)` (to within `10⁻¹⁵`), so the per-component standard deviation
is `velocity / √(π/2) = velocity · √(2/π) ≈ 0.7979 · velocity`, not
`velocity · √(π/2)`. -/
theorem C3_sigma_amended :
    (∀ v : ℝ, Ollin.brownianSigma v = v / 1.2533141373155003) ∧
    |(1.2533141373155003 : ℝ) - Real.sqrt (Real.pi / 2)| < 1e-15 := by
  refine ⟨fun v => rfl, ?_⟩
  have hlo := Real.pi_gt_d20
  have hhi := Real.pi_lt_d20
  have h1 : Real.sqrt (Real.pi / 2) < 1.2533141373155003 := by
    rw [Real.sqrt_lt' (by norm_num)]
    nlinarith
  have h2 : (1.2533141373155003 : ℝ) - 1e-15 < Real.sqrt (Real.pi / 2) := by
    rw [show (1.2533141373155003 : ℝ) - 1e-15 = 1.2533141373155003 - 1e-15 from rfl]
    rw [Real.lt_sqrt (by norm_num)]
    nlinarith
  rw [abs_sub_lt_iff]
  constructor
  · linarith
  · have h3 : 0 < Real.sqrt (Real.pi / 2) := Real.sqrt_pos.2 (by positivity)
    linarith

/-- C7 counterexample to the claim as stated: with habitat range 20,
resolution 1 and a 2-cell grid axis, the position 5 lies in `[0, 20)` yet its
lookup index `⌊5 / 1⌋ = 5` is not a valid index of the axis — the kernel
contains no clamp. -/
theorem C7_index_counterexample :
    (0 : ℝ) ≤ 5 ∧ (5 : ℝ) < 20 ∧ (0 : ℝ) < 1 ∧
    ¬ Ollin.indexInBounds (Ollin.gridIndex 5 1) 2 := by
  refine ⟨by norm_num, by norm_num, by norm_num, ?_⟩
  have h : Ollin.gridIndex 5 1 = 5 := by
    simp [Ollin.gridIndex]
  rw [h]
  intro hc
  exact absurd hc.2 (by norm_num)

/-- C7 amended: the lookup index `⌊x / resolution⌋` is nonnegative for
`0 ≤ x` and is a valid index for a grid axis of `dim` cells precisely under the
extra hypothesis `x < resolution * dim` (grid large enough to cover the
habitat); the kernel itself performs no clamping. -/
theorem C7_index_in_bounds {x resolution : ℝ} {dim : ℕ} (hx : 0 ≤ x)
    (hres : 0 < resolution) (hdim : x < resolution * dim) :
    Ollin.indexInBounds (Ollin.gridIndex x resolution) dim := by
  constructor
  · exact Int.floor_nonneg.2 (div_nonneg hx hres.le)
  · rw [Ollin.gridIndex, Int.floor_lt]
    push_cast
    rw [div_lt_iff₀ hres]
    linarith [hdim]

/-- Witness for C7 amended at `x = 5`, `resolution = 1`, `dim = 20`. -/
theorem C7_index_in_bounds_witness :
    (0 : ℝ) ≤ 5 ∧ (0 : ℝ) < 1 ∧ (5 : ℝ) < 1 * (20 : ℕ) ∧
    Ollin.indexInBounds (Ollin.gridIndex 5 1) 20 := by
  refine ⟨by norm_num, by norm_num, by norm_num, ?_⟩
  exact C7_index_in_bounds (by norm_num) (by norm_num) (by norm_num)

/-- C8: for every suitability value `v ∈ [0, 1]` and uniform draw
`u ∈ [0, 1)`, the step-length exponent `1.1 + 0.9·v` is strictly greater than
1, and the divisor `(1-u)^(1/exponent) · exponent` of the magnitude formula is
strictly positive, so the draw needs no runtime guard. -/
theorem C8_exponent_divisor_pos {v u : ℝ} (hv0 : 0 ≤ v) (hv1 : v ≤ 1)
    (hu0 : 0 ≤ u) (hu1 : u < 1) :
    1 < Ollin.stepExponent v ∧ 0 < Ollin.stepDivisor v u := by
  have he : 1 < Ollin.stepExponent v := by
    rw [Ollin.stepExponent]
    nlinarith
  refine ⟨he, ?_⟩
  rw [Ollin.stepDivisor]
  have h1u : 0 < 1 - u := by linarith
  exact mul_pos (Real.rpow_pos_of_pos h1u _) (by linarith)

/-- Witness for C8 at `v = 0`, `u = 0`. -/
theorem C8_exponent_divisor_pos_witness :
    (0 : ℝ) ≤ 0 ∧ (0 : ℝ) ≤ 1 ∧ (0 : ℝ) ≤ 0 ∧ (0 : ℝ) < 1 ∧
    (1 < Ollin.stepExponent 0 ∧ 0 < Ollin.stepDivisor 0 0) := by
  exact ⟨le_refl 0, by norm_num, le_refl 0, by norm_num,
    C8_exponent_divisor_pos (le_refl 0) (by norm_num) (le_refl 0) (by norm_num)⟩

/-- C10: over exact real arithmetic the fitter's link functions are mutual
inverses: `sigmoid (logit y) = y` on `0 < y < 1` and `logit (sigmoid x) = x`
for every real `x`. -/
theorem C10_sigmoid_logit_inverse :
    (∀ y : ℝ, 0 < y → y < 1 → Ollin.sigmoid (Ollin.logit y) = y) ∧
    (∀ x : ℝ, Ollin.logit (Ollin.sigmoid x) = x) := by
  constructor
  · intro y hy0 hy1
    have ht : 0 < 1 / y - 1 := by
      have : 1 < 1 / y := one_lt_one_div hy0 hy1
      linarith
    rw [Ollin.sigmoid, Ollin.logit, neg_neg, Real.exp_log ht]
    have : 1 + (1 / y - 1) = 1 / y := by ring
    rw [this, one_div_one_div]
  · intro x
    have hex : 0 < Real.exp (-x) := Real.exp_pos _
    have hden : (0 : ℝ) < 1 + Real.exp (-x) := by linarith
    rw [Ollin.logit, Ollin.sigmoid, one_div_one_div]
    have : 1 + Real.exp (-x) - 1 = Real.exp (-x) := by ring
    rw [this, Real.log_exp, neg_neg]

/-- Witness for C10 at `y = 1/2` and `x = 0`. -/
theorem C10_sigmoid_logit_inverse_witness :
    0 < (1 / 2 : ℝ) ∧ (1 / 2 : ℝ) < 1 ∧
    Ollin.sigmoid (Ollin.logit (1 / 2)) = 1 / 2 ∧
    Ollin.logit (Ollin.sigmoid 0) = 0 := by
  exact ⟨by norm_num, by norm_num,
    C10_sigmoid_logit_inverse.1 (1 / 2) (by norm_num) (by norm_num),
    C10_sigmoid_logit_inverse.2 0⟩

/-- C4: evaluating `OccupancyCalibrator.fit`'s regression-target construction
on the boundary samples 0 and 1 shows that they are neither excluded nor
clamped: both stay in the target vector and both become non-finite floats
(`logit(0) = -inf`, `logit(1) = +inf`), which therefore enter the linear
regression. -/
theorem C4_fit_boundary_samples :
    Ollin.fitY [0, 1] = [none, none] ∧ (Ollin.fitY [0, 1]).length = 2 := by
  constructor
  · simp [Ollin.fitY, Ollin.logitF, Ollin.fdiv, Ollin.fsub, Ollin.flog, Ollin.fneg]
  · simp [Ollin.fitY]

/-- C5 counterexample: on a `KeyboardInterrupt` the velocity calibrator's
handler terminates the pool but then exits the process (`sys.exit()`), so the
interrupt is not re-raised to the caller. -/
theorem C5_interrupt_counterexample :
    Ollin.runHandler Ollin.velocityHandler false =
      (true, Ollin.HandlerResult.exited) ∧
    Ollin.HandlerResult.exited ≠ Ollin.HandlerResult.reraised := by
  exact ⟨rfl, by decide⟩

/-- C5 amended: every calibrator handler terminates the pool, but only the
ollin occupancy calibrator re-raises the interrupt; the velocity and
home-range calibrators instead exit the process via `sys.exit()`. -/
theorem C5_interrupt_amended :
    Ollin.runHandler Ollin.occupancyHandler false =
      (true, Ollin.HandlerResult.reraised) ∧
    Ollin.runHandler Ollin.velocityHandler false =
      (true, Ollin.HandlerResult.exited) ∧
    Ollin.runHandler Ollin.homeRangeHandler false =
      (true, Ollin.HandlerResult.exited) := by
  exact ⟨rfl, rfl, rfl⟩

/-- C6: constructing both calibrators with axis lists of lengths 6 and 4,
`trials_per_world = 5` and `num_worlds = 2` shows the divergence: the velocity
calibrator's tensor shape ends with the passed `(2, 5)`, while the home-range
calibrator ignores its constructor arguments and uses the module constants
`(NUM_WORLDS, TRIALS_PER_WORLD) = (10, 1000)`. -/
theorem C6_tensor_shape :
    (VelocityCalibration.Calibrator.make
        [0.1, 0.3, 0.5, 0.8, 1.0, 1.4] [0.2, 0.4, 0.6, 0.9] 5 2).infoShape =
      [6, 4, 2, 5] ∧
    (HomeRangeCalibration.Calibrator.make
        [0.1, 0.3, 0.5, 0.8, 1.0, 1.4] [0.2, 0.4, 0.6, 0.9] 5 2).infoShape =
      [6, 4, 10, 1000] ∧
    ([6, 4, 10, 1000] : List ℕ) ≠ [6, 4, 2, 5] := by
  exact ⟨rfl, rfl, by decide⟩

/-- A heatmap-weighted step with zero per-step velocity fixes any position
already inside the habitat. -/
theorem hStep_zero_vel {r : ℝ} (hr : 0 < r) {p : ℝ × ℝ}
    (h1 : 0 ≤ p.1) (h2 : p.1 < r) (h3 : 0 ≤ p.2) (h4 : p.2 < r)
    (heatmap : ℤ → ℤ → ℝ) (resolution angle u : ℝ) :
    Ollin.hStep heatmap resolution 0 r angle u p = p := by
  have hmag : ∀ value : ℝ, Ollin.stepMagnitude 0 value u = 0 := by
    intro value
    rw [Ollin.stepMagnitude, zero_mul, zero_div]
  simp only [Ollin.hStep, hmag, zero_mul, add_zero]
  rw [Ollin.foldCoord_eq_self hr h1 h2, Ollin.foldCoord_eq_self hr h3 h4]

/-- A constant-brownian step with zero sigma fixes any position already inside
the habitat. -/
theorem bStep_zero_sigma {rx ry : ℝ} (hrx : 0 < rx) (hry : 0 < ry) {p : ℝ × ℝ}
    (h1 : 0 ≤ p.1) (h2 : p.1 < rx) (h3 : 0 ≤ p.2) (h4 : p.2 < ry)
    (zx zy : ℝ) :
    Ollin.bStep 0 rx ry zx zy p = p := by
  simp only [Ollin.bStep, zero_mul, add_zero]
  rw [Ollin.foldCoord_eq_self hrx h1 h2, Ollin.foldCoord_eq_self hry h3 h4]

/-- C9: with velocity 0 and all initial positions inside the habitat, every
recorded position of both movement kernels equals the corresponding
individual's initial position, for every heatmap, resolution, steps-per-day
count and random stream. -/
theorem C9_zero_velocity_constant {r rx ry : ℝ} (hr : 0 < r) (hrx : 0 < rx)
    (hry : 0 < ry) {p0 q0 : ℕ → ℝ × ℝ}
    (hp : ∀ j, 0 ≤ (p0 j).1 ∧ (p0 j).1 < r ∧ 0 ≤ (p0 j).2 ∧ (p0 j).2 < r)
    (hq : ∀ j, 0 ≤ (q0 j).1 ∧ (q0 j).1 < rx ∧ 0 ≤ (q0 j).2 ∧ (q0 j).2 < ry) :
    (∀ (heatmap : ℤ → ℤ → ℝ) (resolution : ℝ) (steps_per_day : ℕ)
        (angles us : ℕ → ℕ → ℝ) (j k : ℕ),
        Ollin.hMovement heatmap resolution 0 r steps_per_day angles us p0 j k = p0 j) ∧
    (∀ (steps_per_day : ℕ) (zxs zys : ℕ → ℕ → ℝ) (j k : ℕ),
        Ollin.bMovement 0 rx ry steps_per_day zxs zys q0 j k = q0 j) := by
  constructor
  · intro heatmap resolution steps_per_day angles us j k
    rw [Ollin.hMovement]
    induction k with
    | zero => rfl
    | succ k ih =>
      simp only [Ollin.hPositions]
      rw [ih, zero_div]
      exact hStep_zero_vel hr (hp j).1 (hp j).2.1 (hp j).2.2.1 (hp j).2.2.2
        heatmap resolution (angles k j) (us k j)
  · intro steps_per_day zxs zys j k
    rw [Ollin.bMovement]
    induction k with
    | zero => rfl
    | succ k ih =>
      simp only [Ollin.bPositions]
      rw [ih, zero_div]
      have hsig : Ollin.brownianSigma 0 = 0 := by
        rw [Ollin.brownianSigma, zero_div]
      rw [hsig]
      exact bStep_zero_sigma hrx hry (hq j).1 (hq j).2.1 (hq j).2.2.1 (hq j).2.2.2
        (zxs k j) (zys k j)

/-- Witness for C9: unit square habitat, all individuals starting at the
origin, zero draws, individual 0 after 3 steps stays at the origin in both
kernels. -/
theorem C9_zero_velocity_constant_witness :
    0 < (1 : ℝ) ∧
    Ollin.hMovement (fun _ _ => 0) 1 0 1 1 (fun _ _ => 0) (fun _ _ => 0)
      (fun _ => (0, 0)) 0 3 = (0, 0) ∧
    Ollin.bMovement 0 1 1 1 (fun _ _ => 0) (fun _ _ => 0)
      (fun _ => (0, 0)) 0 3 = (0, 0) := by
  have h := @C9_zero_velocity_constant 1 1 1 (by norm_num) (by norm_num)
    (by norm_num) (fun _ => (0, 0)) (fun _ => (0, 0))
    (fun j => by norm_num) (fun j => by norm_num)
  exact ⟨by norm_num, h.1 (fun _ _ => 0) 1 1 (fun _ _ => 0) (fun _ _ => 0) 0 3,
    h.2 1 (fun _ _ => 0) (fun _ _ => 0) 0 3⟩

/-! ## Harness enumeration lemmas (C1) -/

/-- Length of a `flatMap` whose blocks all have the same length. -/
theorem flatMap_length_const {A B : Type} (xs : List A) (g : A → List B) (L : ℕ)
    (hL : ∀ x ∈ xs, (g x).length = L) : (xs.flatMap g).length = xs.length * L := by
  induction xs with
  | nil => simp
  | cons x xs ih =>
    simp only [List.flatMap_cons, List.length_append, List.length_cons]
    rw [hL x (List.mem_cons_self x xs),
      ih fun y hy => hL y (List.mem_cons_of_mem x hy)]
    ring

/-- Indexing a `flatMap` with constant block length `L`: position `i·L + r`
falls inside the `i`-th block at offset `r`. -/
theorem flatMap_getElem? {A B : Type} (xs : List A) (g : A → List B) (L : ℕ)
    (hL : ∀ x ∈ xs, (g x).length = L) (i r : ℕ) (x : A)
    (hx : xs[i]? = some x) (hr : r < L) :
    (xs.flatMap g)[i * L + r]? = (g x)[r]? := by
  induction xs generalizing i with
  | nil => simp at hx
  | cons y ys ih =>
    cases i with
    | zero =>
      rw [List.getElem?_cons_zero] at hx
      obtain rfl : y = x := by injection hx
      simp only [List.flatMap_cons, Nat.zero_mul, Nat.zero_add]
      exact List.getElem?_append_left
        (by rw [hL y (List.mem_cons_self y ys)]; exact hr)
    | succ i =>
      rw [List.getElem?_cons_succ] at hx
      simp only [List.flatMap_cons]
      have hyL : (g y).length = L := hL y (List.mem_cons_self y ys)
      have hle : (g y).length ≤ (i + 1) * L + r := by
        rw [hyL]
        have h1 : L ≤ (i + 1) * L := Nat.le_mul_of_pos_left L (Nat.succ_pos i)
        omega
      rw [List.getElem?_append_right hle]
      have harith : (i + 1) * L + r - (g y).length = i * L + r := by
        rw [hyL]
        have : (i + 1) * L = i * L + L := by ring
        omega
      rw [harith]
      exact ih (fun z hz => hL z (List.mem_cons_of_mem y hz)) i hx

/-- Every inner block of `taskList` over the second axis has length
`bs.length * w`. -/
theorem taskList_block_length {A B : Type} (as : List A) (bs : List B) (w : ℕ) :
    ∀ x ∈ as, ((fun a => bs.flatMap fun b =>
      (List.range w).map fun _ => (a, b)) x).length = bs.length * w := by
  intro x _
  exact flatMap_length_const bs _ w fun b _ => by simp

/-- The task at flat position `(i·n₂ + j)·w + k` of the enumeration is the
pair built from the `i`-th first-axis value and the `j`-th second-axis
value. -/
theorem taskList_getElem? {A B : Type} (as : List A) (bs : List B) (w : ℕ)
    (i j k : ℕ) (a : A) (b : B) (ha : as[i]? = some a) (hb : bs[j]? = some b)
    (hk : k < w) :
    (Harness.taskList as bs w)[(i * bs.length + j) * w + k]? = some (a, b) := by
  have hj : j < bs.length := (List.getElem?_eq_some_iff.1 hb).1
  have hpos : (i * bs.length + j) * w + k = i * (bs.length * w) + (j * w + k) := by
    ring
  have hin : j * w + k < bs.length * w := by
    have h1 : j * w + k < (j + 1) * w := by
      have : (j + 1) * w = j * w + w := by ring
      omega
    have h2 : (j + 1) * w ≤ bs.length * w := Nat.mul_le_mul_right w hj
    omega
  rw [Harness.taskList, hpos,
    flatMap_getElem? as _ (bs.length * w) (taskList_block_length as bs w) i
      (j * w + k) a ha hin,
    flatMap_getElem? bs _ w (fun b _ => by simp) j k b hb hk,
    List.getElem?_map, List.getElem?_range hk]
  rfl

/-- The index tuple at flat position `(i·n₂ + j)·w + k` of the write-back
enumeration is `(i, j, k)`. -/
theorem indexList_getElem? (n1 n2 w i j k : ℕ) (hi : i < n1) (hj : j < n2)
    (hk : k < w) :
    (Harness.indexList n1 n2 w)[(i * n2 + j) * w + k]? = some (i, j, k) := by
  have hpos : (i * n2 + j) * w + k = i * (n2 * w) + (j * w + k) := by
    ring
  have hin : j * w + k < n2 * w := by
    have h1 : j * w + k < (j + 1) * w := by
      have : (j + 1) * w = j * w + w := by ring
      omega
    have h2 : (j + 1) * w ≤ n2 * w := Nat.mul_le_mul_right w hj
    omega
  have hblocks : ∀ x ∈ List.range n1, ((fun i => (List.range n2).flatMap fun j =>
      (List.range w).map fun k => (i, j, k)) x).length = n2 * w := by
    intro x _
    exact flatMap_length_const (List.range n2) _ w (fun b _ => by simp) |>.trans
      (by rw [List.length_range])
  rw [Harness.indexList, hpos,
    flatMap_getElem? (List.range n1) _ (n2 * w) hblocks i (j * w + k) i
      (List.getElem?_range hi) hin,
    flatMap_getElem? (List.range n2) _ w (fun b _ => by simp) j k j
      (List.getElem?_range hj) hk,
    List.getElem?_map, List.getElem?_range hk]
  rfl

/-- Length of the index enumeration. -/
theorem indexList_length (n1 n2 w : ℕ) :
    (Harness.indexList n1 n2 w).length = n1 * (n2 * w) := by
  rw [Harness.indexList]
  have hblocks : ∀ x ∈ List.range n1, ((fun i => (List.range n2).flatMap fun j =>
      (List.range w).map fun k => (i, j, k)) x).length = n2 * w := by
    intro x _
    exact flatMap_length_const (List.range n2) _ w (fun b _ => by simp) |>.trans
      (by rw [List.length_range])
  rw [flatMap_length_const (List.range n1) _ (n2 * w) hblocks, List.length_range]

/-- Length of the task enumeration. -/
theorem taskList_length {A B : Type} (as : List A) (bs : List B) (w : ℕ) :
    (Harness.taskList as bs w).length = as.length * (bs.length * w) := by
  rw [Harness.taskList,
    flatMap_length_const as _ (bs.length * w) (taskList_block_length as bs w)]

/-- The ordered pool collection pairs the m-th result with the m-th task. -/
theorem poolMap_getElem? {A B R : Type} (f : ℕ → A × B → R)
    (tasks : List (A × B)) (m : ℕ) (t : A × B) (ht : tasks[m]? = some t) :
    (Harness.poolMap f tasks)[m]? = some (f m t) := by
  simp [Harness.poolMap, List.getElem?_map, List.getElem?_enum, ht]

/-- Length of the pool collection. -/
theorem poolMap_length {A B R : Type} (f : ℕ → A × B → R)
    (tasks : List (A × B)) : (Harness.poolMap f tasks).length = tasks.length := by
  simp [Harness.poolMap, List.enum_length]

/-- The write-back loop is inert at an index tuple it never writes. -/
theorem writeBack_of_not_mem {R : Type} (pairs : List ((ℕ × ℕ × ℕ) × R))
    (t0 : ℕ × ℕ × ℕ → R) (q : ℕ × ℕ × ℕ) (h : q ∉ pairs.map Prod.fst) :
    Harness.writeBack t0 pairs q = t0 q := by
  induction pairs generalizing t0 with
  | nil => rfl
  | cons p ps ih =>
    simp only [List.map_cons, List.mem_cons, not_or] at h
    show Harness.writeBack (Harness.tensorWrite t0 p.1 p.2) ps q = t0 q
    rw [ih _ h.2]
    simp [Harness.tensorWrite, h.1]

/-- With no duplicate index tuples, the write-back loop stores at each tuple
exactly the result zipped with it. -/
theorem writeBack_lookup {R : Type} (pairs : List ((ℕ × ℕ × ℕ) × R))
    (t0 : ℕ × ℕ × ℕ → R) (q : ℕ × ℕ × ℕ) (v : R)
    (hnd : (pairs.map Prod.fst).Nodup) (hmem : (q, v) ∈ pairs) :
    Harness.writeBack t0 pairs q = v := by
  induction pairs generalizing t0 with
  | nil => cases hmem
  | cons p ps ih =>
    simp only [List.map_cons, List.nodup_cons] at hnd
    show Harness.writeBack (Harness.tensorWrite t0 p.1 p.2) ps q = v
    rcases List.mem_cons.1 hmem with heq | hmem2
    · have hq : q ∉ ps.map Prod.fst := by
        rw [← heq] at hnd
        exact hnd.1
      rw [writeBack_of_not_mem _ _ _ hq, ← heq]
      simp [Harness.tensorWrite]
    · exact ih _ hnd.2 hmem2

/-- The index enumeration has no duplicate tuples. -/
theorem indexList_nodup (n1 n2 w : ℕ) : (Harness.indexList n1 n2 w).Nodup := by
  rw [Harness.indexList, List.nodup_flatMap]
  constructor
  · intro i _
    rw [List.nodup_flatMap]
    constructor
    · intro j _
      exact (List.nodup_range w).map
        (fun k1 k2 h => by simpa using congrArg (fun t : ℕ × ℕ × ℕ => t.2.2) h)
    · apply (List.pairwise_lt_range n2).imp
      intro j1 j2 hlt z hz1 hz2
      simp only [List.mem_map, List.mem_range] at hz1 hz2
      obtain ⟨k1, _, hk1⟩ := hz1
      obtain ⟨k2, _, hk2⟩ := hz2
      rw [← hk1] at hk2
      have : j2 = j1 := by simpa using congrArg (fun t : ℕ × ℕ × ℕ => t.2.1) hk2
      omega
  · apply (List.pairwise_lt_range n1).imp
    intro i1 i2 hlt z hz1 hz2
    simp only [List.mem_flatMap, List.mem_map, List.mem_range] at hz1 hz2
    obtain ⟨j1, _, k1, _, hk1⟩ := hz1
    obtain ⟨j2, _, k2, _, hk2⟩ := hz2
    rw [← hk1] at hk2
    have : i2 = i1 := by simpa using congrArg (fun t : ℕ × ℕ × ℕ => t.1) hk2
    omega

/-- C1: for every pair of axis lists, every world count and every family of
task return values, the harness writes into the result tensor at grid index
`(i, j, k)` exactly the value returned by the call at flat position
`(i·n₂ + j)·w + k` of the enumeration, and the task at that position is the
one built from the `i`-th first-axis value and the `j`-th second-axis value
(world repeat `k`) — the submission order equals the consumption order. -/
theorem C1_positional_result_write {A B R : Type} [Zero R] (f : ℕ → A × B → R)
    (as : List A) (bs : List B) (w : ℕ) (i j k : ℕ)
    (hi : i < as.length) (hj : j < bs.length) (hk : k < w) :
    (Harness.taskList as bs w)[(i * bs.length + j) * w + k]? =
      some (as[i], bs[j]) ∧
    Harness.calculateInfo f as bs w (i, j, k) =
      f ((i * bs.length + j) * w + k) (as[i], bs[j]) := by
  have ha : as[i]? = some as[i] := List.getElem?_eq_some_iff.2 ⟨hi, rfl⟩
  have hb : bs[j]? = some bs[j] := List.getElem?_eq_some_iff.2 ⟨hj, rfl⟩
  have htask := taskList_getElem? as bs w i j k as[i] bs[j] ha hb hk
  refine ⟨htask, ?_⟩
  have hidx := indexList_getElem? as.length bs.length w i j k hi hj hk
  have hpool := poolMap_getElem? f (Harness.taskList as bs w)
    ((i * bs.length + j) * w + k) (as[i], bs[j]) htask
  have hzip : ((Harness.indexList as.length bs.length w).zip
      (Harness.poolMap f (Harness.taskList as bs w)))[(i * bs.length + j) * w + k]? =
      some ((i, j, k), f ((i * bs.length + j) * w + k) (as[i], bs[j])) :=
    List.getElem?_zip_eq_some.2 ⟨hidx, hpool⟩
  have hmem := List.getElem?_mem hzip
  have hlen : (Harness.indexList as.length bs.length w).length ≤
      (Harness.poolMap f (Harness.taskList as bs w)).length := by
    rw [indexList_length, poolMap_length, taskList_length]
  have hkeys : (((Harness.indexList as.length bs.length w).zip
      (Harness.poolMap f (Harness.taskList as bs w))).map Prod.fst) =
      Harness.indexList as.length bs.length w :=
    List.map_fst_zip _ _ hlen
  rw [Harness.calculateInfo]
  exact writeBack_lookup _ _ _ _
    (by rw [hkeys]; exact indexList_nodup as.length bs.length w) hmem

/-- Witness for C1 on the grid `[10, 20] × [1, 2, 3]` with 2 worlds and the
task family returning `first + second + call position`: flat position
`(1·3 + 2)·2 + 1 = 11` carries the task `(20, 3)` and the tensor cell
`(1, 2, 1)` receives its value `20 + 3 + 11 = 34`. -/
theorem C1_positional_result_write_witness :
    1 < ([10, 20] : List ℕ).length ∧ 2 < ([1, 2, 3] : List ℕ).length ∧ 1 < 2 ∧
    (Harness.taskList ([10, 20] : List ℕ) ([1, 2, 3] : List ℕ) 2)[11]? =
      some (20, 3) ∧
    Harness.calculateInfo (fun m t => t.1 + t.2 + m)
      ([10, 20] : List ℕ) ([1, 2, 3] : List ℕ) 2 (1, 2, 1) = 34 := by
  have h := C1_positional_result_write (fun m t => t.1 + t.2 + m)
    ([10, 20] : List ℕ) ([1, 2, 3] : List ℕ) 2 1 2 1
    (by simp) (by simp) (by norm_num)
  refine ⟨by simp, by simp, by norm_num, ?_, ?_⟩
  · simpa using h.1
  · simpa using h.2
